import Mathlib

/-!
Verification development for the TokaMaker bootstrap/dynamo iteration engine
in src/python/OpenFUSIONToolkit/TokaMaker/_core.py.

The Python functions are shallowly embedded over exact rationals:
numpy arrays become `List ℚ`, a possibly-NaN sample becomes `Option ℚ`
(`none` models a not-a-number entry), third-party numerical collaborators
(scipy spline construction and integration, numpy.pi, the permeability
constant imported from the package utility module) are passed in as explicit
arguments, and the two driver while loops are embedded as fuel-indexed
structural recursions whose fuel equals the loop bound, so the embedding
computes by plain reduction.
-/

namespace OFT

/-- One sample of a numpy array that may contain NaN entries; `none` models
a not-a-number value. -/
abbrev Sample := Option ℚ

/-- Minimum value of a list, mirroring the Python builtin min on a nonempty
numpy array (the empty case is arbitrary; callers guarantee nonempty). -/
def listMin : List ℚ → ℚ
  | [] => 0
  | [x] => x
  | x :: y :: t => min x (listMin (y :: t))

/-- Maximum value of a list, mirroring the Python builtin max on a nonempty
numpy array. -/
def listMax : List ℚ → ℚ
  | [] => 0
  | [x] => x
  | x :: y :: t => max x (listMax (y :: t))

/-- Index of the first occurrence of a value in a list (total: returns the
length when the value is absent). -/
def idxOf (a : ℚ) : List ℚ → ℕ
  | [] => 0
  | x :: xs => if a = x then 0 else idxOf a xs + 1

/-- Index of the first occurrence of the minimum value, mirroring
numpy.argmin. -/
def argmin (l : List ℚ) : ℕ := idxOf (listMin l) l

/-- Deviation array qcross = qvals - qmin computed at the top of
solve_for_psi_crossing. -/
def qcross (qvals : List ℚ) (qmin : ℚ) : List ℚ := qvals.map (fun q => q - qmin)

/-- Roots kept by the list comprehension filtering the scipy root list to
the open unit interval. -/
def rootsIn01 (roots : List ℚ) : List ℚ :=
  roots.filter (fun x => decide (0 < x ∧ x < 1))

/-- Possible outcomes of solve_for_psi_crossing: a returned triple
(found, psicross, i_near), or an AssertionError raised by the statement
asserting that the last deviation sample is positive. -/
inductive CrossOutcome where
  | ok (found : Bool) (psicross : Option ℚ) (i_near : Option ℕ)
  | assertionError
deriving DecidableEq

/-- Embedding of solve_for_psi_crossing from _core.py (lines 2027-2070).
The single third-party step — building the cubic spline of the deviation
over psi and asking scipy for its roots — is passed in as the explicit
argument `splineRoots` (scipy reports the roots of the interpolant in
ascending order); everything else follows the Python source line by line. -/
def solve_for_psi_crossing (psi qvals : List ℚ) (qmin : ℚ)
    (splineRoots : List ℚ) : CrossOutcome :=
  let qc := qcross qvals qmin
  let qmin_arg := argmin qc
  let qcross_arg := argmin (qc.map (fun x => |x|))
  if 0 < qc.getD qmin_arg 0 then
    .ok false none none
  else if qmin < qc.getD 0 0 then
    .ok false none none
  else if qc.getD qcross_arg 0 = 0 then
    .ok true (some (psi.getD qcross_arg 0)) (some qcross_arg)
  else
    let roots := rootsIn01 splineRoots
    if 0 < roots.length then
      if 3 < roots.length then
        .ok false none none
      else if roots.length = 1 then
        .ok true (some (roots.getD 0 0)) (some qcross_arg)
      else if roots.length = 2 then
        if 0 < qc.getLastD 0 then
          if 3/10 < roots.getD 1 0 - roots.getD 0 0 ∧ listMin qvals < qmin - 1/10 then
            .ok false none none
          else
            .ok true (some (listMax roots)) (some qcross_arg)
        else
          .assertionError
      else
        if 3/10 < roots.getD 2 0 - roots.getD 0 0 then
          .ok false none none
        else
          .ok true (some (listMax roots)) (some qcross_arg)
    else
      .ok false none none

/-- Quadratic Lagrange interpolant through three points.  Models the scipy
collaborator CubicSpline in its documented three-point case: with the
default not-a-knot boundary conditions and exactly three data points scipy
returns the parabola through the given points, so the root list it reports
is the root set of this polynomial. -/
def lagrange3 (x0 y0 x1 y1 x2 y2 x : ℚ) : ℚ :=
  y0 * ((x - x1) * (x - x2)) / ((x0 - x1) * (x0 - x2))
  + y1 * ((x - x0) * (x - x2)) / ((x1 - x0) * (x1 - x2))
  + y2 * ((x - x0) * (x - x1)) / ((x2 - x0) * (x2 - x1))

/-- Embedding of ffprime_from_jtor_pprime (lines 2072-2083): the conversion
(jtor - R_avg * (-pprime)) * (mu0 / one_over_R_avg) applied elementwise to
equal-length arrays.  The permeability constant mu0 comes from the package
utility module outside the sources under study, so it is carried as an
explicit rational parameter; the claims hold for every nonzero value. -/
def ffprime_from_jtor_pprime (mu0 : ℚ) :
    List ℚ → List ℚ → List ℚ → List ℚ → List ℚ
  | jtor :: js, pprime :: ps, R :: Rs, oR :: oRs =>
      ((jtor - R * (-pprime)) * (mu0 / oR)) ::
        ffprime_from_jtor_pprime mu0 js ps Rs oRs
  | _, _, _, _ => []

/-- Embedding of jtor_from_ffprime_pprime (lines 2085-2093): the conversion
R_avg * (-pprime) + one_over_R_avg * ffprime / mu0 applied elementwise to
equal-length arrays. -/
def jtor_from_ffprime_pprime (mu0 : ℚ) :
    List ℚ → List ℚ → List ℚ → List ℚ → List ℚ
  | ffprime :: fs, pprime :: ps, R :: Rs, oR :: oRs =>
      (R * (-pprime) + oR * ffprime / mu0) ::
        jtor_from_ffprime_pprime mu0 fs ps Rs oRs
  | _, _, _, _ => []

/-- Embedding of cross_section_surf_int (lines 2095-2098): the total
current 2 * pi * integral of the cubic spline of a * profile over the
sampled domain.  The scipy spline integration is passed in as the explicit
argument `integrate`, and numpy.pi as the rational parameter `pi`; the
claims hold for every value of both. -/
def cross_section_surf_int (integrate : List ℚ → List ℚ → ℚ) (pi : ℚ)
    (profile a_avgs : List ℚ) : ℚ :=
  2 * pi * integrate a_avgs (List.zipWith (fun a p => a * p) a_avgs profile)

/-- Embedding of rescale_Jtor (lines 2100-2107): recomputes the same
surface integral inline, divides the target by it and returns the
elementwise-rescaled profile together with the factor. -/
def rescale_Jtor (integrate : List ℚ → List ℚ → ℚ) (pi : ℚ)
    (jtor_total : List ℚ) (Ip_target : ℚ) (a_avgs : List ℚ) : List ℚ × ℚ :=
  let csi := 2 * pi * integrate a_avgs (List.zipWith (fun a j => a * j) a_avgs jtor_total)
  let rescaling_factor := Ip_target / csi
  (jtor_total.map (fun j => j * rescaling_factor), rescaling_factor)

/-- Embedding of the numpy in-place write that forces the last element of a
profile array to zero (a no-op on an empty array is immaterial since the
drivers always build nonempty profiles). -/
def set_edge_zero (y : List Sample) : List Sample :=
  if y = [] then [] else y.dropLast ++ [some 0]

/-- Embedding of numpy.nan_to_num on a profile array: every NaN sample
becomes 0, finite samples are unchanged. -/
def nan_to_num (y : List Sample) : List Sample :=
  y.map (fun s => some (s.getD 0))

/-- The profile post-processing both drivers apply immediately before
set_profiles: force the edge sample to zero, then zero out NaNs. -/
def prep_profile (y : List Sample) : List Sample :=
  nan_to_num (set_edge_zero y)

/-- The invariant claimed for every profile handed to set_profiles: last
sample exactly 0 and no not-a-number samples. -/
def profile_ok (y : List Sample) : Prop :=
  y.getLastD none = some 0 ∧ ∀ s ∈ y, s ≠ none

/-- Result of running a driver loop: the sequence of (pp_prof, ffp_prof)
pairs handed to set_profiles, the number of loop passes executed, and how
the loop exited. -/
structure LoopRes (ε : Type) where
  trace : List (List Sample × List Sample)
  iters : ℕ
  exit : ε
deriving DecidableEq

/-- Exits of the plain bootstrap loop: early return on a negative solve
flag, the normal break once n exceeds max_iterations, the fatal raise
guarded by n exceeding max_iterations + 1, and falling out of the while
guard. -/
inductive BootExit where
  | solveError (flag : ℤ)
  | breakDone
  | raiseContract
  | whileExhausted
deriving DecidableEq

/-- Exits of the dynamo loop: early return on a negative solve flag, the
break on flag_end (post-solve q0 in band), the break on n exceeding
max_iterations, the fatal raise, and falling out of the while guard. -/
inductive DynExit where
  | solveError (flag : ℤ)
  | q0Break
  | exhaustedBreak
  | raiseContract
  | whileExhausted
deriving DecidableEq

/-- Fuel-indexed embedding of the iteration loop of solve_with_bootstrap
(lines 1625-1658).  Each pass builds fresh profiles via the nested
profile_iteration closure, whose physics content is invisible to the loop
control and is supplied as the per-iteration oracles `ppRaw` and `ffpRaw`;
the solver result is the oracle `flags`.  The pass forces the profile
edges to zero, zeroes NaNs, hands the profiles to set_profiles, solves,
increments n, and runs the exit checks in source order. -/
def solve_with_bootstrap_loop (ppRaw ffpRaw : ℕ → List Sample)
    (flags : ℕ → ℤ) (maxIter : ℕ) : ℕ → ℕ → LoopRes BootExit
  | 0, _ => ⟨[], 0, .whileExhausted⟩
  | fuel + 1, n =>
    if n ≤ maxIter then
      let pp := prep_profile (ppRaw n)
      let ffp := prep_profile (ffpRaw n)
      let flag := flags n
      if flag < 0 then
        ⟨[(pp, ffp)], 1, .solveError flag⟩
      else if n + 1 > maxIter ∧ 0 ≤ flag then
        ⟨[(pp, ffp)], 1, .breakDone⟩
      else if n + 1 > maxIter + 1 then
        ⟨[(pp, ffp)], 1, .raiseContract⟩
      else
        let r := solve_with_bootstrap_loop ppRaw ffpRaw flags maxIter fuel (n + 1)
        ⟨(pp, ffp) :: r.trace, r.iters + 1, r.exit⟩
    else ⟨[], 0, .whileExhausted⟩

/-- The iteration phase of solve_with_bootstrap, entered at n = 0; the fuel
max_iterations + 1 is exactly the bound the while guard enforces, so fuel
exhaustion coincides with the guard turning false. -/
def solve_with_bootstrap (ppRaw ffpRaw : ℕ → List Sample)
    (flags : ℕ → ℤ) (maxIter : ℕ) : LoopRes BootExit :=
  solve_with_bootstrap_loop ppRaw ffpRaw flags maxIter (maxIter + 1) 0

/-- Fuel-indexed embedding of the iteration loop of
basic_dynamo_w_bootstrap (lines 1978-2025).  In addition to the bootstrap
loop structure, after each solve the driver re-reads the q profile and
computes flag_end from its first entry (oracle `q0s`), using the strict
comparisons of the source: qvals[0] above 1.02 and below 1.07. -/
def basic_dynamo_w_bootstrap_loop (ppRaw ffpRaw : ℕ → List Sample)
    (flags : ℕ → ℤ) (q0s : ℕ → ℚ) (maxIter : ℕ) : ℕ → ℕ → LoopRes DynExit
  | 0, _ => ⟨[], 0, .whileExhausted⟩
  | fuel + 1, n =>
    if n ≤ maxIter then
      let pp := prep_profile (ppRaw n)
      let ffp := prep_profile (ffpRaw n)
      let flag := flags n
      let flag_end := 102/100 < q0s n ∧ q0s n < 107/100
      if flag < 0 then
        ⟨[(pp, ffp)], 1, .solveError flag⟩
      else if flag_end ∧ 0 ≤ flag then
        ⟨[(pp, ffp)], 1, .q0Break⟩
      else if n + 1 > maxIter ∧ 0 ≤ flag then
        ⟨[(pp, ffp)], 1, .exhaustedBreak⟩
      else if n + 1 > maxIter + 1 then
        ⟨[(pp, ffp)], 1, .raiseContract⟩
      else
        let r := basic_dynamo_w_bootstrap_loop ppRaw ffpRaw flags q0s maxIter fuel (n + 1)
        ⟨(pp, ffp) :: r.trace, r.iters + 1, r.exit⟩
    else ⟨[], 0, .whileExhausted⟩

/-- The iteration phase of basic_dynamo_w_bootstrap, entered at n = 0 with
fuel max_iterations + 1, the exact bound the while guard enforces. -/
def basic_dynamo_w_bootstrap (ppRaw ffpRaw : ℕ → List Sample)
    (flags : ℕ → ℤ) (q0s : ℕ → ℚ) (maxIter : ℕ) : LoopRes DynExit :=
  basic_dynamo_w_bootstrap_loop ppRaw ffpRaw flags q0s maxIter (maxIter + 1) 0

/-! ### Supporting lemmas -/

theorem listMin_le {l : List ℚ} {x : ℚ} (hx : x ∈ l) : listMin l ≤ x := by
  induction l with
  | nil => cases hx
  | cons a t ih =>
    cases t with
    | nil =>
      have hxa : x = a := by simpa using hx
      subst hxa
      exact le_refl _
    | cons b t2 =>
      rcases List.mem_cons.mp hx with h | h
      · subst h; exact min_le_left _ _
      · exact le_trans (min_le_right _ _) (ih h)

theorem listMin_mem {l : List ℚ} (h : l ≠ []) : listMin l ∈ l := by
  induction l with
  | nil => exact absurd rfl h
  | cons a t ih =>
    cases t with
    | nil => simp [listMin]
    | cons b t2 =>
      rcases le_total a (listMin (b :: t2)) with hc | hc
      · simp [listMin, min_eq_left hc]
      · have heq : listMin (a :: b :: t2) = listMin (b :: t2) := by
          simp [listMin, min_eq_right hc]
        rw [heq]
        exact List.mem_cons_of_mem _ (ih (by simp))

theorem listMax_pair (a b : ℚ) (h : a ≤ b) : listMax [a, b] = b := by
  simp [listMax, max_eq_right h]

theorem idxOf_lt_length {a : ℚ} {l : List ℚ} (h : a ∈ l) : idxOf a l < l.length := by
  induction l with
  | nil => cases h
  | cons x xs ih =>
    by_cases hax : a = x
    · simp [idxOf, hax]
    · rcases List.mem_cons.mp h with h1 | h1
      · exact absurd h1 hax
      · simpa [idxOf, hax, Nat.succ_lt_succ_iff] using ih h1

theorem getD_idxOf {a : ℚ} {l : List ℚ} (h : a ∈ l) (d : ℚ) :
    l.getD (idxOf a l) d = a := by
  induction l with
  | nil => cases h
  | cons x xs ih =>
    by_cases hax : a = x
    · simp [idxOf, hax]
    · rcases List.mem_cons.mp h with h1 | h1
      · exact absurd h1 hax
      · simpa [idxOf, hax] using ih h1

theorem argmin_lt_length {l : List ℚ} (h : l ≠ []) : argmin l < l.length :=
  idxOf_lt_length (listMin_mem h)

theorem getD_argmin {l : List ℚ} (h : l ≠ []) : l.getD (argmin l) 0 = listMin l :=
  getD_idxOf (listMin_mem h) 0

theorem getD_mem {l : List ℚ} {n : ℕ} (h : n < l.length) (d : ℚ) : l.getD n d ∈ l := by
  rw [List.getD_eq_getElem?_getD, List.getElem?_eq_getElem h]
  exact List.getElem_mem _

theorem getD_map (f : ℚ → ℚ) (l : List ℚ) (n : ℕ) (d : ℚ) :
    (l.map f).getD n (f d) = f (l.getD n d) := by
  induction l generalizing n with
  | nil => simp
  | cons a t ih =>
    cases n with
    | zero => simp
    | succ m => simpa using ih m

theorem getLastD_map (f : ℚ → ℚ) (l : List ℚ) (d : ℚ) :
    (l.map f).getLastD (f d) = f (l.getLastD d) := by
  induction l generalizing d with
  | nil => simp
  | cons a t ih =>
    rw [List.map_cons, List.getLastD_cons, List.getLastD_cons, ih a]

/-- The parabola through the three deviation samples of the C9 failing
input factors as a product of two linear terms, so its full root set is
exactly the pair of values handed to the embedding as the scipy oracle. -/
theorem lagrange3_roots_first_bug_input (x : ℚ) :
    lagrange3 0 (-3) (1/2) 1 1 (-3) x = 0 ↔ x = 1/4 ∨ x = 3/4 := by
  have h : lagrange3 0 (-3) (1/2) 1 1 (-3) x = -((4*x - 1) * (4*x - 3)) := by
    unfold lagrange3; ring
  rw [h, neg_eq_zero, mul_eq_zero]
  constructor
  · rintro (h1 | h1)
    · left; linarith
    · right; linarith
  · rintro (rfl | rfl) <;> norm_num

/-- The parabola through the three deviation samples of the C3
counterexample input factors as a product of two linear terms, so its full
root set is exactly the pair of values handed to the embedding as the
scipy oracle. -/
theorem lagrange3_roots_second_bug_input (x : ℚ) :
    lagrange3 0 (-7) (1/2) 9 1 (-7) x = 0 ↔ x = 1/8 ∨ x = 7/8 := by
  have h : lagrange3 0 (-7) (1/2) 9 1 (-7) x = -((8*x - 1) * (8*x - 7)) := by
    unfold lagrange3; ring
  rw [h, neg_eq_zero, mul_eq_zero]
  constructor
  · rintro (h1 | h1)
    · left; linarith
    · right; linarith
  · rintro (rfl | rfl) <;> norm_num

theorem prep_profile_ok {y : List Sample} (h : y ≠ []) : profile_ok (prep_profile y) := by
  unfold prep_profile set_edge_zero nan_to_num profile_ok
  rw [if_neg h]
  constructor
  · rw [List.map_append]
    simp [List.getLastD_concat]
  · intro s hs
    rw [List.mem_map] at hs
    obtain ⟨a, _, rfl⟩ := hs
    simp

/-- Loop-invariant analysis of the plain bootstrap iteration: with fuel
equal to the remaining while budget, the pass count never exceeds the
fuel, the fatal raise is unreachable, and when every solve succeeds the
loop exits through the normal break after exactly the full budget. -/
theorem solve_with_bootstrap_loop_spec (ppRaw ffpRaw : ℕ → List Sample)
    (flags : ℕ → ℤ) (maxIter : ℕ) :
    ∀ fuel n, n + fuel = maxIter + 1 → n ≤ maxIter →
      (solve_with_bootstrap_loop ppRaw ffpRaw flags maxIter fuel n).iters ≤ fuel ∧
      (solve_with_bootstrap_loop ppRaw ffpRaw flags maxIter fuel n).exit ≠ .raiseContract ∧
      ((∀ i, 0 ≤ flags i) →
        (solve_with_bootstrap_loop ppRaw ffpRaw flags maxIter fuel n).iters = fuel ∧
        (solve_with_bootstrap_loop ppRaw ffpRaw flags maxIter fuel n).exit = .breakDone) := by
  intro fuel
  induction fuel with
  | zero => intro n h1 h2; omega
  | succ f ih =>
    intro n h1 h2
    simp only [solve_with_bootstrap_loop, if_pos h2]
    by_cases hf : flags n < 0
    · rw [if_pos hf]
      exact ⟨Nat.succ_le_succ (Nat.zero_le _), by simp,
        fun hall => absurd (hall n) (by omega)⟩
    · rw [if_neg hf]
      by_cases hbr : n + 1 > maxIter ∧ 0 ≤ flags n
      · rw [if_pos hbr]
        have hfu : f = 0 := by omega
        subst hfu
        exact ⟨le_refl _, by simp, fun _ => ⟨rfl, rfl⟩⟩
      · rw [if_neg hbr]
        have hn1 : ¬ (n + 1 > maxIter + 1) := by omega
        rw [if_neg hn1]
        have hle : n + 1 ≤ maxIter := by omega
        obtain ⟨ha, hb, hc⟩ := ih (n + 1) (by omega) hle
        refine ⟨?_, ?_, fun hall => ?_⟩
        · show _ + 1 ≤ f + 1
          omega
        · show (solve_with_bootstrap_loop ppRaw ffpRaw flags maxIter f (n + 1)).exit ≠ _
          exact hb
        · obtain ⟨h3, h4⟩ := hc hall
          constructor
          · show _ + 1 = f + 1
            omega
          · show (solve_with_bootstrap_loop ppRaw ffpRaw flags maxIter f (n + 1)).exit = _
            exact h4

/-- Loop-invariant analysis of the dynamo iteration: when every solve
succeeds and k is the first pass whose post-solve q0 falls strictly
between 1.02 and 1.07, the loop executes exactly up to pass k and exits
through the q0 break. -/
theorem basic_dynamo_w_bootstrap_loop_spec (ppRaw ffpRaw : ℕ → List Sample)
    (flags : ℕ → ℤ) (q0s : ℕ → ℚ) (maxIter : ℕ)
    (hall : ∀ i, 0 ≤ flags i) :
    ∀ fuel n k, n + fuel = maxIter + 1 → n ≤ maxIter →
      n ≤ k → k ≤ maxIter →
      (102/100 < q0s k ∧ q0s k < 107/100) →
      (∀ j, n ≤ j → j < k → ¬ (102/100 < q0s j ∧ q0s j < 107/100)) →
      (basic_dynamo_w_bootstrap_loop ppRaw ffpRaw flags q0s maxIter fuel n).iters = k + 1 - n ∧
      (basic_dynamo_w_bootstrap_loop ppRaw ffpRaw flags q0s maxIter fuel n).exit = .q0Break := by
  intro fuel
  induction fuel with
  | zero => intro n k h1 h2; omega
  | succ f ih =>
    intro n k h1 h2 hnk hkM hband hbefore
    simp only [basic_dynamo_w_bootstrap_loop, if_pos h2]
    have hf : ¬ (flags n < 0) := by have := hall n; omega
    rw [if_neg hf]
    by_cases hnkeq : n = k
    · subst hnkeq
      rw [if_pos ⟨hband, hall n⟩]
      exact ⟨by show (1:ℕ) = n + 1 - n; omega, rfl⟩
    · have hlt : n < k := by omega
      rw [if_neg (by exact fun hc => hbefore n le_rfl hlt hc.1)]
      have hbr : ¬ (n + 1 > maxIter ∧ 0 ≤ flags n) := by
        intro hc; omega
      rw [if_neg hbr]
      rw [if_neg (by omega : ¬ (n + 1 > maxIter + 1))]
      obtain ⟨ha, hb⟩ := ih (n + 1) k (by omega) (by omega) (by omega) hkM hband
        (fun j hj1 hj2 => hbefore j (by omega) hj2)
      constructor
      · show _ + 1 = k + 1 - n
        omega
      · show (basic_dynamo_w_bootstrap_loop ppRaw ffpRaw flags q0s maxIter f (n + 1)).exit = _
        exact hb

/-- Every profile pair the plain bootstrap loop hands to set_profiles is a
prepared profile. -/
theorem solve_with_bootstrap_loop_trace_ok (ppRaw ffpRaw : ℕ → List Sample)
    (flags : ℕ → ℤ) (maxIter : ℕ)
    (hpp : ∀ i, ppRaw i ≠ []) (hffp : ∀ i, ffpRaw i ≠ []) :
    ∀ fuel n pr, pr ∈ (solve_with_bootstrap_loop ppRaw ffpRaw flags maxIter fuel n).trace →
      profile_ok pr.1 ∧ profile_ok pr.2 := by
  intro fuel
  induction fuel with
  | zero => intro n pr h; simp [solve_with_bootstrap_loop] at h
  | succ f ih =>
    intro n pr h
    simp only [solve_with_bootstrap_loop] at h
    by_cases h2 : n ≤ maxIter
    · rw [if_pos h2] at h
      split_ifs at h with hc1 hc2 hc3
      · rcases (by simpa using h : pr = _) with rfl
        exact ⟨prep_profile_ok (hpp n), prep_profile_ok (hffp n)⟩
      · rcases (by simpa using h : pr = _) with rfl
        exact ⟨prep_profile_ok (hpp n), prep_profile_ok (hffp n)⟩
      · rcases (by simpa using h : pr = _) with rfl
        exact ⟨prep_profile_ok (hpp n), prep_profile_ok (hffp n)⟩
      · rcases List.mem_cons.mp h with rfl | hm
        · exact ⟨prep_profile_ok (hpp n), prep_profile_ok (hffp n)⟩
        · exact ih (n + 1) pr hm
    · rw [if_neg h2] at h
      simp at h

/-- Every profile pair the dynamo loop hands to set_profiles is a prepared
profile. -/
theorem basic_dynamo_w_bootstrap_loop_trace_ok (ppRaw ffpRaw : ℕ → List Sample)
    (flags : ℕ → ℤ) (q0s : ℕ → ℚ) (maxIter : ℕ)
    (hpp : ∀ i, ppRaw i ≠ []) (hffp : ∀ i, ffpRaw i ≠ []) :
    ∀ fuel n pr, pr ∈ (basic_dynamo_w_bootstrap_loop ppRaw ffpRaw flags q0s maxIter fuel n).trace →
      profile_ok pr.1 ∧ profile_ok pr.2 := by
  intro fuel
  induction fuel with
  | zero => intro n pr h; simp [basic_dynamo_w_bootstrap_loop] at h
  | succ f ih =>
    intro n pr h
    simp only [basic_dynamo_w_bootstrap_loop] at h
    by_cases h2 : n ≤ maxIter
    · rw [if_pos h2] at h
      split_ifs at h with hc1 hc2 hc3 hc4
      · rcases (by simpa using h : pr = _) with rfl
        exact ⟨prep_profile_ok (hpp n), prep_profile_ok (hffp n)⟩
      · rcases (by simpa using h : pr = _) with rfl
        exact ⟨prep_profile_ok (hpp n), prep_profile_ok (hffp n)⟩
      · rcases (by simpa using h : pr = _) with rfl
        exact ⟨prep_profile_ok (hpp n), prep_profile_ok (hffp n)⟩
      · rcases (by simpa using h : pr = _) with rfl
        exact ⟨prep_profile_ok (hpp n), prep_profile_ok (hffp n)⟩
      · rcases List.mem_cons.mp h with rfl | hm
        · exact ⟨prep_profile_ok (hpp n), prep_profile_ok (hffp n)⟩
        · exact ih (n + 1) pr hm
    · rw [if_neg h2] at h
      simp at h

/-! ### Claim theorems -/

/-- C1: for equal-length arrays with nonzero flux-averaged 1/R at the
sampled index, ffprime_from_jtor_pprime returns pointwise
(jtor - R_avg * (-pprime)) * mu0 / one_over_R_avg, with no factor of 2
anywhere in the formula. -/
theorem ffprime_from_jtor_pprime_pointwise (mu0 : ℚ)
    (jtor pprime R_avg one_over_R_avg : List ℚ) (i : ℕ)
    (hp : pprime.length = jtor.length) (hR : R_avg.length = jtor.length)
    (ho : one_over_R_avg.length = jtor.length) (hi : i < jtor.length)
    (hnz : one_over_R_avg.getD i 0 ≠ 0) :
    (ffprime_from_jtor_pprime mu0 jtor pprime R_avg one_over_R_avg).getD i 0 =
      (jtor.getD i 0 - R_avg.getD i 0 * (-(pprime.getD i 0))) * mu0 /
        one_over_R_avg.getD i 0 := by
  induction jtor generalizing pprime R_avg one_over_R_avg i with
  | nil => simp at hi
  | cons j js ih =>
    cases pprime with
    | nil => simp at hp
    | cons p ps =>
      cases R_avg with
      | nil => simp at hR
      | cons r rs =>
        cases one_over_R_avg with
        | nil => simp at ho
        | cons o os =>
          cases i with
          | zero =>
            simp only [ffprime_from_jtor_pprime, List.getD_cons_zero]
            rw [mul_div_assoc]
          | succ m =>
            simp only [ffprime_from_jtor_pprime, List.getD_cons_succ]
            exact ih ps rs os m (by simpa using hp) (by simpa using hR)
              (by simpa using ho) (by simpa using hi) (by simpa using hnz)

/-- C1 witness: the pointwise formula evaluated at a concrete sample. -/
theorem ffprime_from_jtor_pprime_pointwise_witness :
    (ffprime_from_jtor_pprime 2 [5, 7] [3, 4] [11, 13] [1/2, 1/4]).getD 1 0 =
      ((7:ℚ) - 13 * (-4)) * 2 / (1/4) := by
  exact ffprime_from_jtor_pprime_pointwise 2 [5, 7] [3, 4] [11, 13] [1/2, 1/4] 1
    rfl rfl rfl (by norm_num) (by norm_num)

/-- C10: the two flux-function conversions are mutually inverse in exact
arithmetic, for every nonzero mu0 and pointwise-nonzero flux-averaged 1/R:
converting a toroidal current density to FFprime and back returns the
original array. -/
theorem jtor_ffprime_roundtrip (mu0 : ℚ) (hmu : mu0 ≠ 0)
    (jtor pprime R_avg one_over_R_avg : List ℚ)
    (hp : pprime.length = jtor.length) (hR : R_avg.length = jtor.length)
    (ho : one_over_R_avg.length = jtor.length)
    (hnz : ∀ x ∈ one_over_R_avg, x ≠ 0) :
    jtor_from_ffprime_pprime mu0
      (ffprime_from_jtor_pprime mu0 jtor pprime R_avg one_over_R_avg)
      pprime R_avg one_over_R_avg = jtor := by
  induction jtor generalizing pprime R_avg one_over_R_avg with
  | nil =>
    cases pprime with
    | nil =>
      cases R_avg with
      | nil =>
        cases one_over_R_avg with
        | nil => rfl
        | cons o os => simp at ho
      | cons r rs => simp at hR
    | cons p ps => simp at hp
  | cons j js ih =>
    cases pprime with
    | nil => simp at hp
    | cons p ps =>
      cases R_avg with
      | nil => simp at hR
      | cons r rs =>
        cases one_over_R_avg with
        | nil => simp at ho
        | cons o os =>
          have hoz : o ≠ 0 := hnz o (by simp)
          simp only [ffprime_from_jtor_pprime, jtor_from_ffprime_pprime,
            List.cons.injEq]
          constructor
          · field_simp
          · exact ih ps rs os (by simpa using hp) (by simpa using hR)
              (by simpa using ho) (fun x hx => hnz x (List.mem_cons_of_mem _ hx))

/-- C10 witness: the round trip evaluated on a concrete array. -/
theorem jtor_ffprime_roundtrip_witness :
    jtor_from_ffprime_pprime 2
      (ffprime_from_jtor_pprime 2 [5, 7] [3, 4] [11, 13] [1/2, 1/4])
      [3, 4] [11, 13] [1/2, 1/4] = [5, 7] := by
  exact jtor_ffprime_roundtrip 2 (by norm_num) [5, 7] [3, 4] [11, 13] [1/2, 1/4]
    rfl rfl rfl (by norm_num)

/-- C4: for a nonzero flux-surface integral, rescale_Jtor returns exactly
the input profile scaled sample-by-sample by the single uniform factor
k = Ip_target / cross_section_surf_int, together with that factor, so the
shape of the profile is preserved. -/
theorem rescale_Jtor_uniform (integrate : List ℚ → List ℚ → ℚ) (pi : ℚ)
    (jtor_total : List ℚ) (Ip_target : ℚ) (a_avgs : List ℚ)
    (hnz : cross_section_surf_int integrate pi jtor_total a_avgs ≠ 0) :
    rescale_Jtor integrate pi jtor_total Ip_target a_avgs =
      (jtor_total.map (fun j => j *
          (Ip_target / cross_section_surf_int integrate pi jtor_total a_avgs)),
        Ip_target / cross_section_surf_int integrate pi jtor_total a_avgs) ∧
    ∀ i, i < jtor_total.length →
      (rescale_Jtor integrate pi jtor_total Ip_target a_avgs).1.getD i 0 =
        jtor_total.getD i 0 *
          (Ip_target / cross_section_surf_int integrate pi jtor_total a_avgs) := by
  constructor
  · rfl
  · intro i hi
    have h0 : ((fun j => j *
        (Ip_target / cross_section_surf_int integrate pi jtor_total a_avgs)) 0 : ℚ) = 0 := by
      simp
    calc (rescale_Jtor integrate pi jtor_total Ip_target a_avgs).1.getD i 0
        = (jtor_total.map (fun j => j *
            (Ip_target / cross_section_surf_int integrate pi jtor_total a_avgs))).getD i
              ((fun j => j * (Ip_target / cross_section_surf_int integrate pi jtor_total a_avgs)) 0) := by
          rw [h0]; rfl
      _ = jtor_total.getD i 0 *
            (Ip_target / cross_section_surf_int integrate pi jtor_total a_avgs) :=
          getD_map _ jtor_total i 0

/-- C4 witness: a concrete rescale with integral oracle 1 and pi = 3. -/
theorem rescale_Jtor_uniform_witness :
    (rescale_Jtor (fun _ _ => 1) 3 [2, 4] 30 [0, 1]).1.getD 0 0 =
      (2:ℚ) * (30 / cross_section_surf_int (fun _ _ => 1) 3 [2, 4] [0, 1]) := by
  exact (rescale_Jtor_uniform (fun _ _ => 1) 3 [2, 4] 30 [0, 1]
    (by norm_num [cross_section_surf_int])).2 0 (by norm_num)

/-- C2 (amended): when the deviation d = q - q_target is not positive
everywhere, the hollow-profile abort (found = false with no crossing
location and no grid index) fires precisely under the condition the source
actually tests, d at the axis strictly greater than q_target itself (that
is q(0) greater than twice the target), not merely d(0) greater than 0. -/
theorem solve_for_psi_crossing_hollow_abort (psi qvals : List ℚ) (qmin : ℚ)
    (splineRoots : List ℚ)
    (hne : qvals ≠ [])
    (hlow : ∃ x ∈ qcross qvals qmin, x ≤ 0)
    (hax : qmin < (qcross qvals qmin).getD 0 0) :
    solve_for_psi_crossing psi qvals qmin splineRoots = .ok false none none := by
  have hqcne : qcross qvals qmin ≠ [] := by
    simpa [qcross] using hne
  obtain ⟨x, hxmem, hx0⟩ := hlow
  have hmin : (qcross qvals qmin).getD (argmin (qcross qvals qmin)) 0 ≤ 0 := by
    rw [getD_argmin hqcne]
    exact le_trans (listMin_le hxmem) hx0
  unfold solve_for_psi_crossing
  rw [if_neg (not_lt.mpr hmin), if_pos hax]

/-- C2 witness: a concrete input on which the hollow abort fires. -/
theorem solve_for_psi_crossing_hollow_abort_witness :
    solve_for_psi_crossing [0, 1/2, 1] [5, 1, 5] 2 [] = .ok false none none := by
  exact solve_for_psi_crossing_hollow_abort [0, 1/2, 1] [5, 1, 5] 2 []
    (by simp)
    ⟨-1, by norm_num [qcross], by norm_num⟩
    (by norm_num [qcross])

/-- C2 counterexample: at psi = [0, 1/2, 1], q = [3/2, 1, 1/2] and
q_target = 1 the deviation is strictly positive at the axis and not
positive everywhere, yet the function does not report the hollow abort: it
returns found = true with location 1/2 and index 1. -/
theorem solve_for_psi_crossing_hollow_cex :
    (0 < (3:ℚ)/2 - 1) ∧ ((1:ℚ)/2 - 1 ≤ 0) ∧
    solve_for_psi_crossing [0, 1/2, 1] [3/2, 1, 1/2] 1 [] =
      .ok true (some (1/2)) (some 1) ∧
    solve_for_psi_crossing [0, 1/2, 1] [3/2, 1, 1/2] 1 [] ≠ .ok false none none := by
  have h : solve_for_psi_crossing [0, 1/2, 1] [3/2, 1, 1/2] 1 [] =
      .ok true (some (1/2)) (some 1) := by
    norm_num [solve_for_psi_crossing, qcross, rootsIn01, argmin, listMin, listMax,
      idxOf, min_def, max_def, abs_of_pos, abs_of_neg, abs_of_nonneg]
  exact ⟨by norm_num, by norm_num, h, by rw [h]; simp⟩

/-- C3 (amended): when the solver reaches the spline stage with exactly
two interior roots (reported in ascending order) and the deviation at the
last sample is positive — so the assertion guarding the two-root branch
passes — it returns found = false exactly when the roots are more than 0.3
apart and min(q) is below q_target - 0.1, and otherwise returns found =
true with the larger (rightmost) root as the crossing location.  Without
the positivity of the last deviation sample the branch raises an
AssertionError instead (see the counterexample). -/
theorem solve_for_psi_crossing_two_roots (psi qvals : List ℚ) (qmin : ℚ)
    (splineRoots : List ℚ)
    (hne : qvals ≠ [])
    (hlow : ∃ x ∈ qcross qvals qmin, x ≤ 0)
    (hax : (qcross qvals qmin).getD 0 0 ≤ qmin)
    (hnz : ∀ x ∈ qcross qvals qmin, x ≠ 0)
    (hlen : (rootsIn01 splineRoots).length = 2)
    (hsorted : (rootsIn01 splineRoots).getD 0 0 ≤ (rootsIn01 splineRoots).getD 1 0)
    (hassert : 0 < (qcross qvals qmin).getLastD 0) :
    (3/10 < (rootsIn01 splineRoots).getD 1 0 - (rootsIn01 splineRoots).getD 0 0 ∧
        listMin qvals < qmin - 1/10 →
      solve_for_psi_crossing psi qvals qmin splineRoots = .ok false none none) ∧
    (¬ (3/10 < (rootsIn01 splineRoots).getD 1 0 - (rootsIn01 splineRoots).getD 0 0 ∧
        listMin qvals < qmin - 1/10) →
      solve_for_psi_crossing psi qvals qmin splineRoots =
        .ok true (some ((rootsIn01 splineRoots).getD 1 0))
          (some (argmin ((qcross qvals qmin).map (fun x => |x|))))) := by
  have hqcne : qcross qvals qmin ≠ [] := by
    simpa [qcross] using hne
  obtain ⟨x, hxmem, hx0⟩ := hlow
  have hg1 : ¬ (0 < (qcross qvals qmin).getD (argmin (qcross qvals qmin)) 0) := by
    rw [getD_argmin hqcne]
    exact not_lt.mpr (le_trans (listMin_le hxmem) hx0)
  have hg2 : ¬ (qmin < (qcross qvals qmin).getD 0 0) := not_lt.mpr hax
  have habs_ne : ((qcross qvals qmin).map (fun x => |x|)) ≠ [] := by
    simpa using hqcne
  have hidx : argmin ((qcross qvals qmin).map (fun x => |x|)) <
      (qcross qvals qmin).length := by
    have h := argmin_lt_length habs_ne
    simpa using h
  have hg3 : ¬ ((qcross qvals qmin).getD
      (argmin ((qcross qvals qmin).map (fun x => |x|))) 0 = 0) :=
    hnz _ (getD_mem hidx 0)
  obtain ⟨a, b, hab⟩ := List.length_eq_two.mp hlen
  have hmax : listMax (rootsIn01 splineRoots) = (rootsIn01 splineRoots).getD 1 0 := by
    rw [hab] at hsorted ⊢
    simpa using listMax_pair a b (by simpa using hsorted)
  unfold solve_for_psi_crossing
  rw [if_neg hg1, if_neg hg2, if_neg hg3]
  rw [if_pos (by rw [hlen]; norm_num : 0 < (rootsIn01 splineRoots).length)]
  rw [if_neg (by rw [hlen]; norm_num : ¬ (3 < (rootsIn01 splineRoots).length))]
  rw [if_neg (by rw [hlen]; norm_num : ¬ ((rootsIn01 splineRoots).length = 1))]
  rw [if_pos hlen, if_pos hassert]
  by_cases hcond : 3/10 < (rootsIn01 splineRoots).getD 1 0 -
      (rootsIn01 splineRoots).getD 0 0 ∧ listMin qvals < qmin - 1/10
  · rw [if_pos hcond]
    exact ⟨fun _ => rfl, fun hc => absurd hcond hc⟩
  · rw [if_neg hcond]
    exact ⟨fun hc => absurd hc hcond, fun _ => by rw [hmax]⟩

/-- C3 witness: a shallow double dip (roots 0.1 apart) picks the larger
root. -/
theorem solve_for_psi_crossing_two_roots_witness :
    solve_for_psi_crossing [0, 1/2, 1] [1, 3/2, 4] 2 [3/5, 7/10] =
      .ok true (some (7/10)) (some 1) := by
  have h := (solve_for_psi_crossing_two_roots [0, 1/2, 1] [1, 3/2, 4] 2 [3/5, 7/10]
    (by simp)
    ⟨-1, by norm_num [qcross], by norm_num⟩
    (by norm_num [qcross])
    (by norm_num [qcross])
    (by norm_num [rootsIn01])
    (by norm_num [rootsIn01])
    (by norm_num [qcross])).2
    (by norm_num [rootsIn01, listMin, min_def])
  rw [h]
  norm_num [rootsIn01, qcross, argmin, idxOf, listMin, min_def,
    abs_of_pos, abs_of_neg, abs_of_nonneg]

/-- C3 counterexample: at psi = [0, 1/2, 1], q = [1, 17, 1] and
q_target = 8 the interpolating parabola through the deviation samples
(-7, 9, -7) has exactly the roots 1/8 and 7/8, both interior, which are
more than 0.3 apart while min(q) is below q_target - 0.1 — the claim
predicts found = false — yet the function raises an AssertionError because
the deviation at the last sample is negative. -/
theorem solve_for_psi_crossing_two_roots_cex :
    qcross [1, 17, 1] 8 = [-7, 9, -7] ∧
    lagrange3 0 (-7) (1/2) 9 1 (-7) (1/8) = 0 ∧
    lagrange3 0 (-7) (1/2) 9 1 (-7) (7/8) = 0 ∧
    (rootsIn01 [1/8, 7/8]).length = 2 ∧
    (3/10 < (7:ℚ)/8 - 1/8) ∧ (listMin [1, 17, 1] < 8 - 1/10) ∧
    solve_for_psi_crossing [0, 1/2, 1] [1, 17, 1] 8 [1/8, 7/8] =
      .assertionError ∧
    solve_for_psi_crossing [0, 1/2, 1] [1, 17, 1] 8 [1/8, 7/8] ≠
      .ok false none none := by
  have h : solve_for_psi_crossing [0, 1/2, 1] [1, 17, 1] 8 [1/8, 7/8] =
      .assertionError := by
    norm_num [solve_for_psi_crossing, qcross, rootsIn01, argmin, listMin, listMax,
      idxOf, min_def, max_def, abs_of_pos, abs_of_neg, abs_of_nonneg]
  refine ⟨by norm_num [qcross], ?_, ?_, by norm_num [rootsIn01], by norm_num,
    by norm_num [listMin, min_def], h, by rw [h]; simp⟩
  · unfold lagrange3; norm_num
  · unfold lagrange3; norm_num

/-- C9: the crossing solver is not total.  At the strictly increasing grid
psi = [0, 1/2, 1] with q = [1, 5, 1] and q_target = 4 the deviation
samples are (-3, 1, -3); the interpolating parabola through them has
exactly the two interior roots 1/4 and 3/4 (see
lagrange3_roots_first_bug_input), so the two-root branch is reached, and
its assertion that the last deviation sample is positive fails: the code
raises an AssertionError instead of returning a triple. -/
theorem solve_for_psi_crossing_assert_fails :
    qcross [1, 5, 1] 4 = [-3, 1, -3] ∧
    lagrange3 0 (-3) (1/2) 1 1 (-3) (1/4) = 0 ∧
    lagrange3 0 (-3) (1/2) 1 1 (-3) (3/4) = 0 ∧
    (rootsIn01 [1/4, 3/4]).length = 2 ∧
    ((-3:ℚ) ≤ 0) ∧
    solve_for_psi_crossing [0, 1/2, 1] [1, 5, 1] 4 [1/4, 3/4] =
      .assertionError := by
  refine ⟨by norm_num [qcross], ?_, ?_, by norm_num [rootsIn01], by norm_num, ?_⟩
  · unfold lagrange3; norm_num
  · unfold lagrange3; norm_num
  · norm_num [solve_for_psi_crossing, qcross, rootsIn01, argmin, listMin, listMax,
      idxOf, min_def, max_def, abs_of_pos, abs_of_neg, abs_of_nonneg]

/-- C6: in both driver variants, every pp_prof and ffp_prof handed to
set_profiles during iteration has its last sample set to exactly zero and
contains no not-a-number samples, provided each iteration produces
nonempty raw profiles. -/
theorem set_profiles_inputs_ok (ppRaw ffpRaw : ℕ → List Sample)
    (flags : ℕ → ℤ) (q0s : ℕ → ℚ) (maxIter : ℕ)
    (hpp : ∀ i, ppRaw i ≠ []) (hffp : ∀ i, ffpRaw i ≠ []) :
    (∀ pr ∈ (solve_with_bootstrap ppRaw ffpRaw flags maxIter).trace,
      profile_ok pr.1 ∧ profile_ok pr.2) ∧
    (∀ pr ∈ (basic_dynamo_w_bootstrap ppRaw ffpRaw flags q0s maxIter).trace,
      profile_ok pr.1 ∧ profile_ok pr.2) :=
  ⟨fun pr hm => solve_with_bootstrap_loop_trace_ok ppRaw ffpRaw flags maxIter
      hpp hffp (maxIter + 1) 0 pr hm,
    fun pr hm => basic_dynamo_w_bootstrap_loop_trace_ok ppRaw ffpRaw flags q0s maxIter
      hpp hffp (maxIter + 1) 0 pr hm⟩

/-- C6 witness: the profile handed to set_profiles on the first pass of a
concrete run (raw profile [NaN, 3]) has edge zero and no NaN. -/
theorem set_profiles_inputs_ok_witness :
    profile_ok [Option.some (0:ℚ), some 0] := by
  have h := (set_profiles_inputs_ok (fun _ => [none, some 3])
    (fun _ => [none, some 3]) (fun _ => 0) (fun _ => 1) 0
    (fun _ => by simp) (fun _ => by simp)).1
  have hm : (([Option.some (0:ℚ), some 0], [Option.some (0:ℚ), some 0]) :
      List Sample × List Sample) ∈
      (solve_with_bootstrap (fun _ => [none, some 3]) (fun _ => [none, some 3])
        (fun _ => 0) 0).trace := by
    norm_num [solve_with_bootstrap, solve_with_bootstrap_loop, prep_profile,
      nan_to_num, set_edge_zero]
    simp
  exact (h _ hm).1

/-- C7 (amended): in the dynamo variant, when every solve succeeds and
pass k (within the iteration bound) is the first whose post-solve q0 lies
strictly between 1.02 and 1.07, the loop stops through the q0 break
immediately after pass k, having executed exactly k + 1 passes; the test
is on the q profile re-read after the solve.  The interval is open: the
source compares with strict inequalities, so q0 exactly equal to 1.02 or
1.07 does not stop the loop (see the counterexample). -/
theorem dynamo_stops_at_first_band_hit (ppRaw ffpRaw : ℕ → List Sample)
    (flags : ℕ → ℤ) (q0s : ℕ → ℚ) (maxIter k : ℕ)
    (hall : ∀ i, 0 ≤ flags i)
    (hk : k ≤ maxIter)
    (hband : 102/100 < q0s k ∧ q0s k < 107/100)
    (hfirst : ∀ j < k, ¬ (102/100 < q0s j ∧ q0s j < 107/100)) :
    (basic_dynamo_w_bootstrap ppRaw ffpRaw flags q0s maxIter).iters = k + 1 ∧
    (basic_dynamo_w_bootstrap ppRaw ffpRaw flags q0s maxIter).exit = .q0Break := by
  have h := basic_dynamo_w_bootstrap_loop_spec ppRaw ffpRaw flags q0s maxIter hall
    (maxIter + 1) 0 k (by omega) (by omega) (by omega) hk hband
    (fun j _ hj => hfirst j hj)
  unfold basic_dynamo_w_bootstrap
  exact ⟨by rw [h.1]; omega, h.2⟩

/-- C7 witness: with q0 hitting 1.05 on the second pass, the loop stops
after exactly two passes through the q0 break. -/
theorem dynamo_stops_at_first_band_hit_witness :
    (basic_dynamo_w_bootstrap (fun _ => [some 1]) (fun _ => [some 1])
        (fun _ => 0) (fun n => if n = 1 then 21/20 else 2) 3).iters = 2 ∧
    (basic_dynamo_w_bootstrap (fun _ => [some 1]) (fun _ => [some 1])
        (fun _ => 0) (fun n => if n = 1 then 21/20 else 2) 3).exit = .q0Break := by
  have h := dynamo_stops_at_first_band_hit (fun _ => [some 1]) (fun _ => [some 1])
    (fun _ => 0) (fun n => if n = 1 then 21/20 else 2) 3 1
    (fun _ => le_refl 0) (by omega)
    (by norm_num)
    (fun j hj => by interval_cases j <;> norm_num)
  exact h

/-- C7 counterexample: the first post-solve q0 equals 1.02, the left end
of the closed interval of the claim, yet the loop does not stop there: it
runs a second pass and exits through iteration exhaustion. -/
theorem dynamo_closed_interval_cex :
    ((102:ℚ)/100 ≤ (if (0:ℕ) = 0 then (102:ℚ)/100 else 2)) ∧
    ((if (0:ℕ) = 0 then (102:ℚ)/100 else 2) ≤ 107/100) ∧
    (basic_dynamo_w_bootstrap (fun _ => [some 1]) (fun _ => [some 1])
        (fun _ => 0) (fun n => if n = 0 then 102/100 else 2) 1).iters = 2 ∧
    (basic_dynamo_w_bootstrap (fun _ => [some 1]) (fun _ => [some 1])
        (fun _ => 0) (fun n => if n = 0 then 102/100 else 2) 1).exit =
      .exhaustedBreak := by
  refine ⟨by norm_num, by norm_num, ?_, ?_⟩
  · norm_num [basic_dynamo_w_bootstrap, basic_dynamo_w_bootstrap_loop,
      prep_profile, nan_to_num, set_edge_zero]
  · norm_num [basic_dynamo_w_bootstrap, basic_dynamo_w_bootstrap_loop,
      prep_profile, nan_to_num, set_edge_zero]

/-- C8: for every max_iterations and every solve-flag sequence, the plain
bootstrap loop executes at most max_iterations + 1 passes and can never
reach the fatal raise; when every solve returns a non-negative flag it
exits through the normal break after exactly max_iterations + 1 passes. -/
theorem bootstrap_loop_bound (ppRaw ffpRaw : ℕ → List Sample)
    (flags : ℕ → ℤ) (maxIter : ℕ) :
    (solve_with_bootstrap ppRaw ffpRaw flags maxIter).iters ≤ maxIter + 1 ∧
    (solve_with_bootstrap ppRaw ffpRaw flags maxIter).exit ≠ .raiseContract ∧
    ((∀ i, 0 ≤ flags i) →
      (solve_with_bootstrap ppRaw ffpRaw flags maxIter).iters = maxIter + 1 ∧
      (solve_with_bootstrap ppRaw ffpRaw flags maxIter).exit = .breakDone) :=
  solve_with_bootstrap_loop_spec ppRaw ffpRaw flags maxIter (maxIter + 1) 0
    (by omega) (by omega)

/-- C8 witness: with three allowed iterations and all solves succeeding,
the loop runs exactly three passes and exits through the normal break. -/
theorem bootstrap_loop_bound_witness :
    (solve_with_bootstrap (fun _ => [some 1]) (fun _ => [some 1])
        (fun _ => 0) 2).iters = 2 + 1 ∧
    (solve_with_bootstrap (fun _ => [some 1]) (fun _ => [some 1])
        (fun _ => 0) 2).exit = .breakDone :=
  (bootstrap_loop_bound (fun _ => [some 1]) (fun _ => [some 1])
    (fun _ => 0) 2).2.2 (fun _ => le_refl 0)

end OFT
